import Mathlib

/-!
Shallow embedding of the `query` crate: a URL query-string parser
(`src/url_query.rs`, `src/filter.rs`) and a SQL builder (`src/sql.rs`).
Rust `String`/`&str` values are modelled as `List Char`; `HashSet<String>`
as a duplicate-free `List`; `HashMap` as an association list; fallible
functions return `Except ParseError _`.

The crate's `lib.rs` declares `pub mod sort;` but the file `sort.rs` is not
part of the sources; the `Sort` component is modelled from the spec (see
`Sort'` below).
-/

set_option maxHeartbeats 1000000

deriving instance DecidableEq for Except

namespace QuerySpec

/-- Rust strings are modelled as lists of characters. -/
abbrev Str := List Char

/-- View a Lean string literal as the model's string type. -/
def s2l (s : String) : Str := s.data

/-- Model of Rust `str::split_once` with a one-character pattern: split at the
first occurrence of the separator, returning the pieces before and after it. -/
def splitOnce (sep : Char) : Str → Option (Str × Str)
  | [] => none
  | c :: cs =>
    if c = sep then some ([], cs)
    else
      match splitOnce sep cs with
      | some (a, b) => some (c :: a, b)
      | none => none

/-- Model of Rust `str::split` with a one-character pattern: `""` yields
`[""]`, and every separator occurrence starts a new piece. -/
def splitList (sep : Char) : Str → List Str
  | [] => [[]]
  | c :: cs =>
    if c = sep then [] :: splitList sep cs
    else
      match splitList sep cs with
      | [] => [[c]]
      | t :: ts => (c :: t) :: ts

/-- `ParseError` from `src/lib.rs`. -/
inductive ParseError where
  | InvalidSort
  | InvalidSortBy
  | InvalidFilter
  | InvalidCondition
  | InvalidField
  deriving DecidableEq, Repr

/-- `Condition` from `src/filter.rs`. -/
inductive Condition where
  | EQ
  | NE
  | GT
  | GE
  | LT
  | LE
  deriving DecidableEq, Repr

/-- `impl FromStr for Condition` from `src/filter.rs`. -/
def Condition.fromStr (s : Str) : Except ParseError Condition :=
  if s = s2l "eq" then .ok .EQ
  else if s = s2l "ne" then .ok .NE
  else if s = s2l "gt" then .ok .GT
  else if s = s2l "ge" then .ok .GE
  else if s = s2l "lt" then .ok .LT
  else if s = s2l "le" then .ok .LE
  else .error .InvalidCondition

/-- `Condition::as_str` from `src/filter.rs`. -/
def Condition.asStr : Condition → Str
  | .EQ => s2l "="
  | .NE => s2l "!="
  | .GT => s2l ">"
  | .GE => s2l ">="
  | .LT => s2l "<"
  | .LE => s2l "<="

/-- `Filter` from `src/filter.rs`. -/
structure Filter where
  field : Str
  condition : Condition
  value : Str
  deriving DecidableEq, Repr

/-- `Filter::new` from `src/filter.rs`: split at the first two `-`
occurrences; everything after the second separator is the value. -/
def Filter.new (str : Str) : Except ParseError Filter :=
  match splitOnce '-' str with
  | none => .error .InvalidFilter
  | some (field, rest) =>
    match splitOnce '-' rest with
    | none => .error .InvalidFilter
    | some (condition, value) =>
      match Condition.fromStr condition with
      | .ok c => .ok ⟨field, c, value⟩
      | .error e => .error e

/-- `Filter::from_key_value` from `src/filter.rs`. -/
def Filter.from_key_value (key : Str) (value : Str) (condition : Condition) : Filter :=
  ⟨key, condition, value⟩

/-- Direction of a sort. Modelled from the spec: `lib.rs` declares
`pub mod sort;` but `sort.rs` is missing from the sources; per spec §4.3/§6
the direction token set is `{asc, desc}`. -/
inductive SortBy where
  | ASC
  | DESC
  deriving DecidableEq, Repr

/-- Modelled from the spec: parse a direction token, `InvalidSortBy` for an
unrecognized one (spec §7). -/
def SortBy.fromStr (s : Str) : Except ParseError SortBy :=
  if s = s2l "asc" then .ok .ASC
  else if s = s2l "desc" then .ok .DESC
  else .error .InvalidSortBy

/-- Modelled from the spec: render form of a direction (spec §4.3). -/
def SortBy.asStr : SortBy → Str
  | .ASC => s2l "ASC"
  | .DESC => s2l "DESC"

/-- `Sort` — modelled from the spec (the `sort` module's file is missing):
`{field, direction}`, spec §3. Named `Sort'` because `Sort` is a Lean
keyword. -/
structure Sort' where
  field : Str
  sort_by : SortBy
  deriving DecidableEq, Repr

/-- Modelled from the spec: parse `field-direction`, "parsed the same way as
a filter's token form" (spec §2, §4.3, §6); a token without `-` is a
malformed sort token (`InvalidSort`, spec §7). -/
def Sort'.new (s : Str) : Except ParseError Sort' :=
  match splitOnce '-' s with
  | none => .error .InvalidSort
  | some (field, dir) =>
    match SortBy.fromStr dir with
    | .ok d => .ok ⟨field, d⟩
    | .error e => .error e

/-- The only `convert_case::Case` value this crate uses. -/
inductive Case where
  | Snake
  deriving DecidableEq, Repr

/-- Helper for `toSnake`: prepend `_` to every uppercase letter and lowercase
it. -/
def toSnakeGo : Str → Str
  | [] => []
  | c :: cs => if c.isUpper then '_' :: c.toLower :: toSnakeGo cs else c :: toSnakeGo cs

/-- Model of the external crate `convert_case`'s `Case::Snake` conversion on
the identifier shapes this crate feeds it (camelCase / snake_case ASCII
names such as `userId`): each uppercase letter after the first character is
preceded by `_`, and all letters are lowercased. -/
def toSnake : Str → Str
  | [] => []
  | c :: cs => c.toLower :: toSnakeGo cs

/-- Apply an optional case conversion to a field name, as
`self.field.to_case(case)` does in `src/filter.rs`. -/
def applyCase : Option Case → Str → Str
  | some .Snake, s => toSnake s
  | none, s => s

/-- Modelled from the spec: `render_sql` of a sort,
`[table.]field_transformed ASC|DESC` (spec §4.3), matching the call
`sort.to_sql_map_table(table, Some(Case::Snake))` in `src/sql.rs`. -/
def Sort'.to_sql_map_table (s : Sort') (table : Option Str) (case : Option Case) : Str :=
  (match table with
   | some t => t ++ s2l "."
   | none => []) ++
  applyCase case s.field ++ s2l " " ++ s.sort_by.asStr

/-- `check_allowed_fields` from `src/url_query.rs`: membership in the
caller-supplied allow-list (a `HashSet`, modelled as a list queried only by
membership). -/
def check_allowed_fields (field : Str) (allowed_fields : List Str) : Except ParseError Unit :=
  if field ∈ allowed_fields then .ok () else .error .InvalidField

/-- `UrlQuery` from `src/url_query.rs`. `params` is a `HashSet<String>`,
modelled as a duplicate-free list in insertion order. -/
structure UrlQuery where
  params : List Str
  filters : List Filter
  group : Option Str
  sort : Option Sort'
  limit_offset : Option Str × Option Str
  deriving DecidableEq, Repr

/-- `HashSet::insert`: add a key unless it is already present. -/
def insertSet (k : Str) (s : List Str) : List Str :=
  if k ∈ s then s else s ++ [k]

/-- The loop body of `UrlQuery::new` (`src/url_query.rs`): dispatch one
`&`-separated token against the reserved keys, threading the partial model.
A token without `=` is skipped (`continue`). -/
def processToken (allowed_fields : List Str) (st : UrlQuery) (q : Str) :
    Except ParseError UrlQuery :=
  match splitOnce '=' q with
  | none => .ok st
  | some (k, v) =>
    if k = s2l "filter[]" then
      match Filter.new v with
      | .error e => .error e
      | .ok filter =>
        match check_allowed_fields filter.field allowed_fields with
        | .error e => .error e
        | .ok _ => .ok { st with filters := st.filters ++ [filter] }
    else if k = s2l "group" then
      match check_allowed_fields v allowed_fields with
      | .error e => .error e
      | .ok _ => .ok { st with group := some v }
    else if k = s2l "sort" then
      match Sort'.new v with
      | .error e => .error e
      | .ok srt =>
        match check_allowed_fields srt.field allowed_fields with
        | .error e => .error e
        | .ok _ => .ok { st with sort := some srt }
    else if k = s2l "limit" then
      .ok { st with limit_offset := (some v, st.limit_offset.2) }
    else if k = s2l "offset" then
      .ok { st with limit_offset := (st.limit_offset.1, some v) }
    else
      match check_allowed_fields k allowed_fields with
      | .error e => .error e
      | .ok _ =>
        .ok { st with
                filters := st.filters ++ [Filter.from_key_value k v Condition.EQ],
                params := insertSet k st.params }

/-- The `for q in queries` loop of `UrlQuery::new`: process the tokens in
order, aborting on the first error. -/
def newLoop (allowed_fields : List Str) : UrlQuery → List Str → Except ParseError UrlQuery
  | st, [] => .ok st
  | st, t :: ts =>
    match processToken allowed_fields st t with
    | .error e => .error e
    | .ok st' => newLoop allowed_fields st' ts

/-- The state all of `UrlQuery::new`'s locals start from. -/
def emptyQuery : UrlQuery := ⟨[], [], none, none, (none, none)⟩

/-- `UrlQuery::new` from `src/url_query.rs`. -/
def UrlQuery.new (str : Str) (allowed_fields : List Str) : Except ParseError UrlQuery :=
  newLoop allowed_fields emptyQuery (splitList '&' str)

/-- `UrlQuery::check_limit` from `src/url_query.rs`. -/
def UrlQuery.check_limit (q : UrlQuery) : Except Str Str :=
  match q.limit_offset.1 with
  | some limit => .ok limit
  | none => .error (s2l "limit is required")

/-- `UrlQuery::check_offset` from `src/url_query.rs`. -/
def UrlQuery.check_offset (q : UrlQuery) : Except Str Str :=
  match q.limit_offset.2 with
  | some offset => .ok offset
  | none => .error (s2l "offset is required")

/-- `Database`. `src/sql.rs` declares the `Postgres` variant; `src/filter.rs`
additionally matches a `MySQL` variant, so both are modelled. -/
inductive Database where
  | Postgres
  | MySQL
  deriving DecidableEq, Repr

/-- `Filter::to_sql` from `src/filter.rs`: push the (optionally
case-converted) field, the comparison operator, and the bind placeholder
(`$idx` for Postgres, `?` for MySQL) onto the accumulated string. -/
def Filter.to_sql (f : Filter) (filter : Str) (idx : Nat) (case : Option Case)
    (database : Database) : Str :=
  let filter := filter ++ applyCase case f.field
  let filter := filter ++ s2l " " ++ f.condition.asStr ++ s2l " "
  match database with
  | .Postgres => filter ++ '$' :: Nat.toDigits 10 idx
  | .MySQL => filter ++ s2l "?"

/-- `Filter::to_sql_map_table` from `src/filter.rs`: prefix `table.` when the
column is mapped, then render via `to_sql`. The snapshot's `src/sql.rs` calls
this without the database argument; the builder's `_database` field is
threaded through here. -/
def Filter.to_sql_map_table (f : Filter) (idx : Nat) (table : Option Str)
    (case : Option Case) (database : Database) : Str :=
  (match table with
   | some t => t ++ s2l "."
   | none => []) |> fun filter => f.to_sql filter idx case database

/-- Rust `Vec::join`: interleave the separator between the pieces. -/
def joinSep (sep : Str) : List Str → Str
  | [] => []
  | [x] => x
  | x :: xs => x ++ sep ++ joinSep sep xs

/-- `HashMap::get` on the column→table map, modelled as association-list
lookup. -/
def lookupMap : List (Str × Str) → Str → Option Str
  | [], _ => none
  | (a, b) :: rest, k => if a = k then some b else lookupMap rest k

/-- `QueryBuilder` from `src/sql.rs` (the `_database` field is named
`database` here). -/
structure QueryBuilder where
  url_query : UrlQuery
  database : Database
  map_columns : List (Str × Str)
  shift_bind : Nat
  sql : Str
  deriving DecidableEq, Repr

/-- `gen_sql_select` from `src/sql.rs`. -/
def gen_sql_select (table : Str) (columns : List Str) : Str :=
  s2l "SELECT " ++ joinSep (s2l ", ") columns ++ s2l " FROM " ++ table

/-- `QueryBuilder::new` from `src/sql.rs`. -/
def QueryBuilder.new (table : Str) (columns : List Str) (url_query : UrlQuery)
    (database : Database) : QueryBuilder :=
  ⟨url_query, database, [], 0, gen_sql_select table columns⟩

/-- `QueryBuilder::from_str` from `src/sql.rs`. -/
def QueryBuilder.from_str (sql : Str) (url_query : UrlQuery) (database : Database) :
    QueryBuilder :=
  ⟨url_query, database, [], 0, sql⟩

/-- `QueryBuilder::append` from `src/sql.rs`: append a raw fragment after a
space. -/
def QueryBuilder.append (b : QueryBuilder) (sql : Str) : QueryBuilder :=
  { b with sql := b.sql ++ s2l " " ++ sql }

/-- `QueryBuilder::map_columns` (the setter) from `src/sql.rs`. -/
def QueryBuilder.withMapColumns (b : QueryBuilder) (m : List (Str × Str)) : QueryBuilder :=
  { b with map_columns := m }

/-- `QueryBuilder::shift_bind` (the setter) from `src/sql.rs`. -/
def QueryBuilder.withShiftBind (b : QueryBuilder) (x : Nat) : QueryBuilder :=
  { b with shift_bind := x }

/-- The filter loop of `QueryBuilder::append_where` (`src/sql.rs`): for each
filter, render it at bind index `args.len() + shift_bind + 1` and push its
`(field, value)` pair onto `args`. Returns the rendered pieces and the final
`args`. -/
def whereLoop (m : List (Str × Str)) (shift : Nat) (db : Database) :
    List Filter → List (Str × Str) → List Str × List (Str × Str)
  | [], args => ([], args)
  | f :: fs, args =>
    let part := f.to_sql_map_table (args.length + shift + 1) (lookupMap m f.field)
      (some Case.Snake) db
    let rest := whereLoop m shift db fs (args ++ [(f.field, f.value)])
    (part :: rest.1, rest.2)

/-- `QueryBuilder::append_where` from `src/sql.rs`: join the rendered filters
with `" AND "`, prepend `" WHERE "` only when there is at least one filter,
and return the bind args. -/
def QueryBuilder.append_where (b : QueryBuilder) : QueryBuilder × List (Str × Str) :=
  let fa := whereLoop b.map_columns b.shift_bind b.database b.url_query.filters []
  ({ b with
      sql :=
        if fa.1.length > 0 then b.sql ++ s2l " WHERE " ++ joinSep (s2l " AND ") fa.1
        else b.sql },
   fa.2)

/-- `QueryBuilder::append_group` from `src/sql.rs`. -/
def QueryBuilder.append_group (b : QueryBuilder) : QueryBuilder :=
  match b.url_query.group with
  | none => b
  | some group =>
    { b with
        sql := b.sql ++ s2l " GROUP BY " ++
          (match lookupMap b.map_columns group with
           | some t => t ++ s2l "."
           | none => []) ++ toSnake group }

/-- `QueryBuilder::append_sort` from `src/sql.rs`. -/
def QueryBuilder.append_sort (b : QueryBuilder) : QueryBuilder :=
  match b.url_query.sort with
  | none => b
  | some srt =>
    { b with
        sql := b.sql ++ s2l " ORDER BY " ++
          srt.to_sql_map_table (lookupMap b.map_columns srt.field) (some Case.Snake) }

/-- `append_limit` from `src/sql.rs`. -/
def append_limit (sql : Str) (limit : Str) : Str :=
  sql ++ s2l " LIMIT " ++ limit

/-- `append_offset` from `src/sql.rs`. -/
def append_offset (sql : Str) (offset : Str) : Str :=
  sql ++ s2l " OFFSET " ++ offset

/-- `QueryBuilder::build` from `src/sql.rs`: append the WHERE clause (keeping
its bind args), the GROUP BY, the ORDER BY, then LIMIT — and OFFSET only
inside the `limit`-present branch. -/
def QueryBuilder.build (b : QueryBuilder) : Str × List (Str × Str) :=
  let bw := b.append_where
  let b3 := bw.1.append_group.append_sort
  let sql :=
    match b3.url_query.check_limit with
    | .ok limit =>
      match b3.url_query.check_offset with
      | .ok offset => append_offset (append_limit b3.sql limit) offset
      | .error _ => append_limit b3.sql limit
    | .error _ => b3.sql
  (sql, bw.2)

/-- The SQL accumulated by `build` just before the LIMIT/OFFSET step. -/
def preLimitSql (b : QueryBuilder) : Str :=
  ((b.append_where).1.append_group.append_sort).sql

/-- Spec view of one token's contribution to `filters` (spec §4.4): a
`filter[]` token contributes its parsed filter, a plain `key=value` token an
implicit equality filter, every other token nothing. Written with the same
dispatch chain as `processToken`. -/
def specFilterOfToken (t : Str) : Option Filter :=
  match splitOnce '=' t with
  | none => none
  | some (k, v) =>
    if k = s2l "filter[]" then (Filter.new v).toOption
    else if k = s2l "group" then none
    else if k = s2l "sort" then none
    else if k = s2l "limit" then none
    else if k = s2l "offset" then none
    else some (Filter.from_key_value k v Condition.EQ)

/-- The sort a token contributes, when it is a `sort=` token whose value
parses. -/
def sortTokenOf (t : Str) : Option Sort' :=
  match splitOnce '=' t with
  | none => none
  | some (k, v) =>
    if k = s2l "filter[]" then none
    else if k = s2l "group" then none
    else if k = s2l "sort" then (Sort'.new v).toOption
    else none

/-- The group field a token contributes, when it is a `group=` token. -/
def groupTokenOf (t : Str) : Option Str :=
  match splitOnce '=' t with
  | none => none
  | some (k, v) =>
    if k = s2l "filter[]" then none
    else if k = s2l "group" then some v
    else none

/-- The plain (non-reserved) key of a token, when it has one. -/
def plainKeyOf (t : Str) : Option Str :=
  match splitOnce '=' t with
  | none => none
  | some (k, _) =>
    if k = s2l "filter[]" then none
    else if k = s2l "group" then none
    else if k = s2l "sort" then none
    else if k = s2l "limit" then none
    else if k = s2l "offset" then none
    else some k

/-- A token whose own allow-list check is the one that fails: a plain key
outside the allow-list, a well-formed `filter[]`/`sort` token whose field is
outside it, or a `group` token whose value is outside it. -/
def badToken (allowed : List Str) (t : Str) : Bool :=
  match splitOnce '=' t with
  | none => false
  | some (k, v) =>
    if k = s2l "filter[]" then
      match Filter.new v with
      | .ok fl => decide (fl.field ∉ allowed)
      | .error _ => false
    else if k = s2l "group" then decide (v ∉ allowed)
    else if k = s2l "sort" then
      match Sort'.new v with
      | .ok s => decide (s.field ∉ allowed)
      | .error _ => false
    else if k = s2l "limit" then false
    else if k = s2l "offset" then false
    else decide (k ∉ allowed)

/-- Pair each list element with its index, starting from `n` — the shape of
the `args.len()` counter inside `append_where`'s loop. -/
def withIdx : Nat → List Filter → List (Nat × Filter)
  | _, [] => []
  | n, f :: fs => (n, f) :: withIdx (n + 1) fs

/-- Test fixture: a model holding two filters, for the builder claims. -/
def exUrlQueryTwoFilters : UrlQuery :=
  ⟨[], [⟨s2l "aa", Condition.EQ, s2l "1"⟩, ⟨s2l "bb", Condition.GE, s2l "2"⟩],
   none, none, (none, none)⟩

/-- Test fixture: a builder over `exUrlQueryTwoFilters`. -/
def exBuilderTwoFilters : QueryBuilder :=
  ⟨exUrlQueryTwoFilters, Database.Postgres, [], 0, s2l "SELECT x FROM t"⟩

/-- Test fixture: a model with a limit and no offset. -/
def exUrlQueryLimitOnly : UrlQuery := ⟨[], [], none, none, (some (s2l "10"), none)⟩

/-- Test fixture: a builder over `exUrlQueryLimitOnly`. -/
def exBuilderLimitOnly : QueryBuilder :=
  ⟨exUrlQueryLimitOnly, Database.Postgres, [], 0, s2l "SELECT x FROM t"⟩

/-- Test fixture: a model with an offset and no limit. -/
def exUrlQueryOffsetOnly : UrlQuery := ⟨[], [], none, none, (none, some (s2l "5"))⟩

/-- Test fixture: a builder over `exUrlQueryOffsetOnly`. -/
def exBuilderOffsetOnly : QueryBuilder :=
  ⟨exUrlQueryOffsetOnly, Database.Postgres, [], 0, s2l "SELECT x FROM t"⟩

/-- Test fixture: a model with one filter, a limit and an offset. -/
def exUrlQueryLimitOffset : UrlQuery :=
  ⟨[], [⟨s2l "aa", Condition.EQ, s2l "1"⟩], none, none, (some (s2l "10"), some (s2l "5"))⟩

/-- Test fixture: a builder over `exUrlQueryLimitOffset`. -/
def exBuilderLimitOffset : QueryBuilder :=
  ⟨exUrlQueryLimitOffset, Database.Postgres, [], 0, s2l "SELECT x FROM t"⟩

theorem splitOnce_of_not_mem {sep : Char} {s : Str} (h : sep ∉ s) :
    splitOnce sep s = none := by
  induction s with
  | nil => rfl
  | cons c cs ih =>
    simp only [List.mem_cons, not_or] at h
    simp only [splitOnce, if_neg (Ne.symm h.1), ih h.2]

theorem splitOnce_append {sep : Char} {a : Str} (b : Str) (h : sep ∉ a) :
    splitOnce sep (a ++ sep :: b) = some (a, b) := by
  induction a with
  | nil => simp [splitOnce]
  | cons c cs ih =>
    simp only [List.mem_cons, not_or] at h
    rw [List.cons_append]
    show (if c = sep then some ([], cs ++ sep :: b)
      else
        match splitOnce sep (cs ++ sep :: b) with
        | some (a, b) => some (c :: a, b)
        | none => none) = some (c :: cs, b)
    rw [if_neg (Ne.symm h.1), ih h.2]

theorem splitOnce_eq_some {sep : Char} {s a b : Str}
    (h : splitOnce sep s = some (a, b)) : s = a ++ sep :: b ∧ sep ∉ a := by
  induction s generalizing a b with
  | nil => simp [splitOnce] at h
  | cons c cs ih =>
    simp only [splitOnce] at h
    by_cases hc : c = sep
    · rw [if_pos hc] at h
      obtain ⟨rfl, rfl⟩ := (by simpa using h : [] = a ∧ cs = b)
      simp [hc]
    · rw [if_neg hc] at h
      cases hsp : splitOnce sep cs with
      | none => rw [hsp] at h; exact absurd h (by simp)
      | some p =>
        obtain ⟨a', b'⟩ := p
        rw [hsp] at h
        obtain ⟨rfl, rfl⟩ := (by simpa using h : c :: a' = a ∧ b' = b)
        obtain ⟨hcs, hna⟩ := ih hsp
        exact ⟨by simp [hcs], by simp [not_or, hna, Ne.symm hc]⟩

theorem Condition.fromStr_error {c : Str} {e : ParseError}
    (h : Condition.fromStr c = .error e) : e = .InvalidCondition := by
  unfold Condition.fromStr at h
  split_ifs at h
  simp_all

theorem Filter.new_invalid_of_count {s : Str} (h : s.count '-' < 2) :
    Filter.new s = .error .InvalidFilter := by
  cases hsp : splitOnce '-' s with
  | none => unfold Filter.new; rw [hsp]
  | some p =>
    obtain ⟨f, rest⟩ := p
    obtain ⟨rfl, hnf⟩ := splitOnce_eq_some hsp
    have hfc : f.count '-' = 0 := List.count_eq_zero.mpr hnf
    rw [List.count_append, hfc, List.count_cons_self] at h
    have hnr : '-' ∉ rest := List.count_eq_zero.mp (by omega)
    simp only [Filter.new, hsp, splitOnce_of_not_mem hnr]

theorem check_allowed_fields_ok {f : Str} {a : List Str} {u : Unit}
    (h : check_allowed_fields f a = .ok u) : f ∈ a := by
  unfold check_allowed_fields at h
  by_cases hm : f ∈ a
  · exact hm
  · rw [if_neg hm] at h
    exact absurd h (by simp)

theorem check_allowed_fields_not_ok {f : Str} {a : List Str} (hm : f ∉ a) :
    check_allowed_fields f a = .error .InvalidField := by
  unfold check_allowed_fields
  rw [if_neg hm]

@[simp] theorem exceptToOption_ok {e a : Type} (x : a) :
    (Except.ok x : Except e a).toOption = some x := rfl

@[simp] theorem exceptToOption_error {e a : Type} (x : e) :
    (Except.error x : Except e a).toOption = none := rfl

/-- How one successful `processToken` step relates the new partial model to
the old one, and that every field it adds has passed the allow-list check. -/
theorem processToken_ok_spec {allowed : List Str} {st st' : UrlQuery} {t : Str}
    (h : processToken allowed st t = .ok st') :
    st'.filters = st.filters ++ (specFilterOfToken t).toList
    ∧ st'.sort = (match sortTokenOf t with
                  | some s => some s
                  | none => st.sort)
    ∧ st'.group = (match groupTokenOf t with
                   | some g => some g
                   | none => st.group)
    ∧ st'.params = (match plainKeyOf t with
                    | some k => insertSet k st.params
                    | none => st.params)
    ∧ (∀ fl ∈ (specFilterOfToken t).toList, fl.field ∈ allowed)
    ∧ (∀ s, sortTokenOf t = some s → s.field ∈ allowed)
    ∧ (∀ g, groupTokenOf t = some g → g ∈ allowed)
    ∧ (∀ k, plainKeyOf t = some k → k ∈ allowed) := by
  cases hsp : splitOnce '=' t with
  | none =>
    simp only [processToken, hsp] at h
    obtain rfl : st = st' := by simpa using h
    simp [specFilterOfToken, sortTokenOf, groupTokenOf, plainKeyOf, hsp]
  | some kv =>
    obtain ⟨k, v⟩ := kv
    simp only [processToken, hsp] at h
    simp only [specFilterOfToken, sortTokenOf, groupTokenOf, plainKeyOf, hsp]
    by_cases h1 : k = s2l "filter[]"
    · simp only [if_pos h1] at h ⊢
      cases hf : Filter.new v with
      | error e =>
        simp only [hf] at h
        exact absurd h (by simp)
      | ok fl =>
        simp only [hf] at h
        cases hc : check_allowed_fields fl.field allowed with
        | error e =>
          simp only [hc] at h
          exact absurd h (by simp)
        | ok u =>
          simp only [hc] at h
          obtain rfl : ({ st with filters := st.filters ++ [fl] } : UrlQuery) = st' := by
            simpa using h
          refine ⟨by simp, by simp, by simp, by simp, ?_, by simp, by simp, by simp⟩
          intro x hx
          obtain rfl : x = fl := by simpa using hx
          exact check_allowed_fields_ok hc
    · simp only [if_neg h1] at h ⊢
      by_cases h2 : k = s2l "group"
      · simp only [if_pos h2] at h ⊢
        cases hc : check_allowed_fields v allowed with
        | error e =>
          simp only [hc] at h
          exact absurd h (by simp)
        | ok u =>
          simp only [hc] at h
          obtain rfl : ({ st with group := some v } : UrlQuery) = st' := by simpa using h
          refine ⟨by simp, by simp, by simp, by simp, by simp, by simp, ?_, by simp⟩
          intro g hg
          obtain rfl : v = g := by simpa using hg
          exact check_allowed_fields_ok hc
      · simp only [if_neg h2] at h ⊢
        by_cases h3 : k = s2l "sort"
        · simp only [if_pos h3] at h ⊢
          cases hs : Sort'.new v with
          | error e =>
            simp only [hs] at h
            exact absurd h (by simp)
          | ok srt =>
            simp only [hs] at h
            cases hc : check_allowed_fields srt.field allowed with
            | error e =>
              simp only [hc] at h
              exact absurd h (by simp)
            | ok u =>
              simp only [hc] at h
              obtain rfl : ({ st with sort := some srt } : UrlQuery) = st' := by simpa using h
              refine ⟨by simp, by simp, by simp, by simp, by simp, ?_, by simp, by simp⟩
              intro s hsx
              obtain rfl : srt = s := by simpa using hsx
              exact check_allowed_fields_ok hc
        · simp only [if_neg h3] at h ⊢
          by_cases h4 : k = s2l "limit"
          · simp only [if_pos h4] at h ⊢
            obtain rfl : ({ st with limit_offset := (some v, st.limit_offset.2) } : UrlQuery)
                = st' := by simpa using h
            exact ⟨by simp, by simp, by simp, by simp, by simp, by simp, by simp, by simp⟩
          · simp only [if_neg h4] at h ⊢
            by_cases h5 : k = s2l "offset"
            · simp only [if_pos h5] at h ⊢
              obtain rfl : ({ st with limit_offset := (st.limit_offset.1, some v) } : UrlQuery)
                  = st' := by simpa using h
              exact ⟨by simp, by simp, by simp, by simp, by simp, by simp, by simp, by simp⟩
            · simp only [if_neg h5] at h ⊢
              cases hc : check_allowed_fields k allowed with
              | error e =>
                simp only [hc] at h
                exact absurd h (by simp)
              | ok u =>
                simp only [hc] at h
                obtain rfl : ({ st with
                    filters := st.filters ++ [Filter.from_key_value k v Condition.EQ],
                    params := insertSet k st.params } : UrlQuery) = st' := by simpa using h
                refine ⟨by simp, by simp, by simp, by simp, ?_, by simp, by simp, ?_⟩
                · intro x hx
                  obtain rfl : x = Filter.from_key_value k v Condition.EQ := by
                    simpa using hx
                  exact check_allowed_fields_ok hc
                · intro x hx
                  obtain rfl : k = x := by simpa using hx
                  exact check_allowed_fields_ok hc

theorem insertSet_mem (k x : Str) (s : List Str) : x ∈ insertSet k s ↔ x ∈ s ∨ x = k := by
  unfold insertSet
  by_cases hk : k ∈ s
  · rw [if_pos hk]
    constructor
    · exact Or.inl
    · rintro (hx | rfl)
      exacts [hx, hk]
  · rw [if_neg hk]
    simp

theorem insertSet_nodup {k : Str} {s : List Str} (h : s.Nodup) : (insertSet k s).Nodup := by
  unfold insertSet
  by_cases hk : k ∈ s
  · rwa [if_pos hk]
  · rw [if_neg hk]
    simp [List.nodup_append, h, hk]

/-- Characterization of a successful run of the whole parse loop: `filters`
collects the per-token contributions in order, `sort` and `group` are
last-token-wins, and `params` is the set of plain keys seen. -/
theorem newLoop_ok_spec {allowed : List Str} {st q : UrlQuery} {ts : List Str}
    (h : newLoop allowed st ts = .ok q) :
    q.filters = st.filters ++ ts.filterMap specFilterOfToken
    ∧ q.sort = ts.foldl (fun acc t =>
        match sortTokenOf t with
        | some s => some s
        | none => acc) st.sort
    ∧ q.group = ts.foldl (fun acc t =>
        match groupTokenOf t with
        | some g => some g
        | none => acc) st.group
    ∧ (∀ k, k ∈ q.params ↔ k ∈ st.params ∨ ∃ t ∈ ts, plainKeyOf t = some k)
    ∧ (st.params.Nodup → q.params.Nodup) := by
  induction ts generalizing st with
  | nil =>
    obtain rfl : st = q := by simpa [newLoop] using h
    simp
  | cons t ts ih =>
    simp only [newLoop] at h
    cases hp : processToken allowed st t with
    | error e =>
      simp only [hp] at h
      exact absurd h (by simp)
    | ok st1 =>
      simp only [hp] at h
      obtain ⟨hf1, hs1, hg1, hp1, -, -, -, -⟩ := processToken_ok_spec hp
      obtain ⟨if1, is1, ig1, ip1, ind1⟩ := ih h
      refine ⟨?_, ?_, ?_, ?_, ?_⟩
      · rw [if1, hf1, List.append_assoc]
        cases hsf : specFilterOfToken t <;> simp [hsf, List.filterMap_cons]
      · rw [is1, List.foldl_cons, ← hs1]
      · rw [ig1, List.foldl_cons, ← hg1]
      · intro k
        rw [ip1 k]
        cases hpk : plainKeyOf t with
        | none =>
          rw [hp1, hpk]
          simp only [List.mem_cons, hpk]
          constructor
          · rintro (hk | ⟨t', ht', hkt'⟩)
            · exact Or.inl hk
            · exact Or.inr ⟨t', Or.inr ht', hkt'⟩
          · rintro (hk | ⟨t', (rfl | ht'), hkt'⟩)
            · exact Or.inl hk
            · exact absurd (hpk ▸ hkt') (by simp)
            · exact Or.inr ⟨t', ht', hkt'⟩
        | some k0 =>
          rw [hp1, hpk, insertSet_mem]
          simp only [List.mem_cons]
          constructor
          · rintro ((hk | rfl) | ⟨t', ht', hkt'⟩)
            · exact Or.inl hk
            · exact Or.inr ⟨t, Or.inl rfl, hpk⟩
            · exact Or.inr ⟨t', Or.inr ht', hkt'⟩
          · rintro (hk | ⟨t', (rfl | ht'), hkt'⟩)
            · exact Or.inl (Or.inl hk)
            · exact Or.inl (Or.inr (by simpa [hpk] using hkt'.symm))
            · exact Or.inr ⟨t', ht', hkt'⟩
      · intro hnd
        refine ind1 ?_
        rw [hp1]
        cases hpk : plainKeyOf t with
        | none => simpa using hnd
        | some k0 => simpa using insertSet_nodup hnd

/-- Every field name in the final model passed the allow-list check, given
that the starting state already satisfied the invariant. -/
theorem newLoop_ok_allowed {allowed : List Str} {st q : UrlQuery} {ts : List Str}
    (h : newLoop allowed st ts = .ok q)
    (hp : ∀ p ∈ st.params, p ∈ allowed) (hf : ∀ f ∈ st.filters, f.field ∈ allowed)
    (hg : ∀ g, st.group = some g → g ∈ allowed)
    (hs : ∀ s, st.sort = some s → s.field ∈ allowed) :
    (∀ p ∈ q.params, p ∈ allowed) ∧ (∀ f ∈ q.filters, f.field ∈ allowed)
    ∧ (∀ g, q.group = some g → g ∈ allowed)
    ∧ (∀ s, q.sort = some s → s.field ∈ allowed) := by
  induction ts generalizing st with
  | nil =>
    obtain rfl : st = q := by simpa [newLoop] using h
    exact ⟨hp, hf, hg, hs⟩
  | cons t ts ih =>
    simp only [newLoop] at h
    cases hpt : processToken allowed st t with
    | error e =>
      simp only [hpt] at h
      exact absurd h (by simp)
    | ok st1 =>
      simp only [hpt] at h
      obtain ⟨hf1, hs1, hg1, hp1, haf, has, hag, hap⟩ := processToken_ok_spec hpt
      refine ih h ?_ ?_ ?_ ?_
      · intro p hpm
        rw [hp1] at hpm
        cases hpk : plainKeyOf t with
        | none =>
          rw [hpk] at hpm
          exact hp p hpm
        | some k0 =>
          rw [hpk] at hpm
          rcases (insertSet_mem k0 p st.params).mp hpm with hm | rfl
          · exact hp p hm
          · exact hap p hpk
      · intro f hfm
        rw [hf1] at hfm
        rcases List.mem_append.mp hfm with hm | hm
        · exact hf f hm
        · exact haf f hm
      · intro g hgm
        rw [hg1] at hgm
        cases hgt : groupTokenOf t with
        | none =>
          rw [hgt] at hgm
          exact hg g hgm
        | some g0 =>
          rw [hgt] at hgm
          obtain rfl : g0 = g := by simpa using hgm
          exact hag g0 hgt
      · intro s hsm
        rw [hs1] at hsm
        cases hst : sortTokenOf t with
        | none =>
          rw [hst] at hsm
          exact hs s hsm
        | some s0 =>
          rw [hst] at hsm
          obtain rfl : s0 = s := by simpa using hsm
          exact has s0 hst

/-- A token flagged by `badToken` makes `processToken` fail with
`InvalidField` from every state. -/
theorem badToken_processToken {allowed : List Str} {t : Str}
    (hb : badToken allowed t = true) (st : UrlQuery) :
    processToken allowed st t = .error .InvalidField := by
  cases hsp : splitOnce '=' t with
  | none =>
    rw [badToken, hsp] at hb
    exact absurd hb (by simp)
  | some kv =>
    obtain ⟨k, v⟩ := kv
    rw [badToken, hsp] at hb
    simp only [processToken, hsp]
    by_cases h1 : k = s2l "filter[]"
    · simp only [if_pos h1] at hb ⊢
      cases hf : Filter.new v with
      | error e =>
        simp only [hf] at hb
        exact absurd hb (by simp)
      | ok fl =>
        simp only [hf] at hb ⊢
        rw [check_allowed_fields_not_ok (of_decide_eq_true hb)]
    · simp only [if_neg h1] at hb ⊢
      by_cases h2 : k = s2l "group"
      · simp only [if_pos h2] at hb ⊢
        rw [check_allowed_fields_not_ok (of_decide_eq_true hb)]
      · simp only [if_neg h2] at hb ⊢
        by_cases h3 : k = s2l "sort"
        · simp only [if_pos h3] at hb ⊢
          cases hsrt : Sort'.new v with
          | error e =>
            simp only [hsrt] at hb
            exact absurd hb (by simp)
          | ok srt =>
            simp only [hsrt] at hb ⊢
            rw [check_allowed_fields_not_ok (of_decide_eq_true hb)]
        · simp only [if_neg h3] at hb ⊢
          by_cases h4 : k = s2l "limit"
          · rw [if_pos h4] at hb
            exact absurd hb (by simp)
          · simp only [if_neg h4] at hb ⊢
            by_cases h5 : k = s2l "offset"
            · rw [if_pos h5] at hb
              exact absurd hb (by simp)
            · simp only [if_neg h5] at hb ⊢
              rw [check_allowed_fields_not_ok (of_decide_eq_true hb)]

/-- A flagged token anywhere in the token list makes the whole loop fail. -/
theorem newLoop_fails_of_mem {allowed : List Str} {t : Str} {ts : List Str}
    (hmem : t ∈ ts) (hb : badToken allowed t = true) (st : UrlQuery) :
    ∀ q, newLoop allowed st ts ≠ .ok q := by
  induction ts generalizing st with
  | nil => cases hmem
  | cons t0 ts ih =>
    intro q h
    simp only [newLoop] at h
    cases hpt : processToken allowed st t0 with
    | error e =>
      simp only [hpt] at h
      exact absurd h (by simp)
    | ok st1 =>
      simp only [hpt] at h
      rcases List.mem_cons.mp hmem with rfl | hmem'
      · rw [badToken_processToken hb st] at hpt
        exact absurd hpt (by simp)
      · exact ih hmem' st1 q h

/-- Running the loop on an appended token list runs the two halves in
sequence, propagating the first error. -/
theorem newLoop_append (allowed : List Str) (st : UrlQuery) (ts1 ts2 : List Str) :
    newLoop allowed st (ts1 ++ ts2) =
      match newLoop allowed st ts1 with
      | .ok st' => newLoop allowed st' ts2
      | .error e => .error e := by
  induction ts1 generalizing st with
  | nil => simp [newLoop]
  | cons t ts ih =>
    simp only [List.cons_append, newLoop]
    cases hpt : processToken allowed st t with
    | error e => simp
    | ok st1 => simp [ih]

theorem withIdx_length (n : Nat) (fs : List Filter) : (withIdx n fs).length = fs.length := by
  induction fs generalizing n with
  | nil => rfl
  | cons f fs ih => simp [withIdx, ih]

theorem withIdx_get? (n i : Nat) (fs : List Filter) :
    (withIdx n fs).get? i = (fs.get? i).map (fun f => (n + i, f)) := by
  induction fs generalizing n i with
  | nil => simp [withIdx]
  | cons f fs ih =>
    cases i with
    | zero => simp [withIdx]
    | succ j =>
      simp only [withIdx, List.get?_cons_succ, ih]
      have hnj : n + 1 + j = n + (j + 1) := by omega
      rw [hnj]

/-- Unrolling `append_where`'s loop: the i-th filter is rendered at bind
index `args.length + i + shift + 1` and contributes its own `(field, value)`
pair, in order. -/
theorem whereLoop_spec (m : List (Str × Str)) (shift : Nat) (db : Database)
    (fs : List Filter) (args : List (Str × Str)) :
    whereLoop m shift db fs args =
      ((withIdx args.length fs).map (fun p =>
         p.2.to_sql_map_table (p.1 + shift + 1) (lookupMap m p.2.field) (some Case.Snake) db),
       args ++ fs.map (fun f => (f.field, f.value))) := by
  induction fs generalizing args with
  | nil => simp [whereLoop, withIdx]
  | cons f fs ih =>
    simp [whereLoop, withIdx, ih]

/-- A filter rendered for Postgres ends in its `$n` placeholder. -/
theorem to_sql_map_table_postgres (f : Filter) (idx : Nat) (table : Option Str)
    (case : Option Case) :
    ∃ pre : Str, f.to_sql_map_table idx table case Database.Postgres
      = pre ++ '$' :: Nat.toDigits 10 idx := by
  refine ⟨(match table with
    | some t => t ++ s2l "."
    | none => []) ++ applyCase case f.field ++ s2l " " ++ f.condition.asStr ++ s2l " ", ?_⟩
  simp [Filter.to_sql_map_table, Filter.to_sql, List.append_assoc]

/-- The bind args returned by `append_where` are exactly the model's
`(field, value)` pairs, in model order. -/
theorem append_where_args (b : QueryBuilder) :
    (b.append_where).2 = b.url_query.filters.map (fun f => (f.field, f.value)) := by
  simp [QueryBuilder.append_where, whereLoop_spec]

/-- `build` returns `append_where`'s bind args unchanged. -/
theorem build_args (b : QueryBuilder) :
    (b.build).2 = b.url_query.filters.map (fun f => (f.field, f.value)) := by
  simp only [QueryBuilder.build, append_where_args]

theorem append_where_url_query (b : QueryBuilder) :
    ((b.append_where).1).url_query = b.url_query := rfl

theorem append_group_url_query (b : QueryBuilder) :
    (b.append_group).url_query = b.url_query := by
  cases hb : b.url_query.group <;> simp [QueryBuilder.append_group, hb]

theorem append_sort_url_query (b : QueryBuilder) :
    (b.append_sort).url_query = b.url_query := by
  cases hb : b.url_query.sort <;> simp [QueryBuilder.append_sort, hb]

/-- The SQL text produced by `build`, split into the part before LIMIT and
the LIMIT/OFFSET suffix dictated by the model. -/
theorem build_sql_spec (b : QueryBuilder) :
    (b.build).1 =
      match b.url_query.limit_offset.1 with
      | some limit =>
        (match b.url_query.limit_offset.2 with
         | some offset => append_offset (append_limit (preLimitSql b) limit) offset
         | none => append_limit (preLimitSql b) limit)
      | none => preLimitSql b := by
  have hq : ((b.append_where).1.append_group.append_sort).url_query = b.url_query := by
    rw [append_sort_url_query, append_group_url_query, append_where_url_query]
  simp only [QueryBuilder.build, UrlQuery.check_limit, UrlQuery.check_offset, hq, preLimitSql]
  cases hlo : b.url_query.limit_offset.1 with
  | none => simp
  | some limit =>
    cases hoo : b.url_query.limit_offset.2 <;> simp

/-- C5: `Filter::new` splits its input at the first two `-` occurrences only
— for fields and condition tokens free of `-`, the value is the whole
remainder (hyphens included); an input with fewer than two `-` characters
fails with `InvalidFilter`, and an unrecognized condition segment fails with
`InvalidCondition`. -/
theorem c5_filter_token_split :
    (∀ f c v : Str, ∀ cond : Condition, ('-' ∉ f) → ('-' ∉ c) →
      Condition.fromStr c = .ok cond →
      Filter.new (f ++ '-' :: (c ++ '-' :: v)) = .ok ⟨f, cond, v⟩)
    ∧ (∀ s : Str, s.count '-' < 2 → Filter.new s = .error .InvalidFilter)
    ∧ (∀ f c v : Str, ∀ e : ParseError, ('-' ∉ f) → ('-' ∉ c) →
      Condition.fromStr c = .error e →
      Filter.new (f ++ '-' :: (c ++ '-' :: v)) = .error .InvalidCondition) := by
  refine ⟨?_, fun s h => Filter.new_invalid_of_count h, ?_⟩
  · intro f c v cond hf hc hcond
    simp only [Filter.new, splitOnce_append _ hf, splitOnce_append _ hc, hcond]
  · intro f c v e hf hc hcond
    simp only [Filter.new, splitOnce_append _ hf, splitOnce_append _ hc, hcond,
      Condition.fromStr_error hcond]

/-- Witness for C5 at the spec's UUID example and a too-short token. -/
theorem c5_filter_token_split_witness :
    (('-' ∉ s2l "id") ∧ ('-' ∉ s2l "eq")
      ∧ Condition.fromStr (s2l "eq") = .ok Condition.EQ
      ∧ Filter.new
          (s2l "id" ++ '-' :: (s2l "eq" ++ '-' :: s2l "8bd8a6fb-e2b2-47ab-b3db-4f47c067ba5e"))
          = .ok ⟨s2l "id", Condition.EQ, s2l "8bd8a6fb-e2b2-47ab-b3db-4f47c067ba5e"⟩
      ∧ s2l "id" ++ '-' :: (s2l "eq" ++ '-' :: s2l "8bd8a6fb-e2b2-47ab-b3db-4f47c067ba5e")
          = s2l "id-eq-8bd8a6fb-e2b2-47ab-b3db-4f47c067ba5e")
    ∧ ((s2l "price").count '-' < 2
      ∧ Filter.new (s2l "price") = .error .InvalidFilter) :=
  ⟨⟨by decide, by decide, by decide,
    c5_filter_token_split.1 (s2l "id") (s2l "eq") _ Condition.EQ (by decide) (by decide)
      (by decide),
    by decide⟩,
   by decide,
   c5_filter_token_split.2.1 (s2l "price") (by decide)⟩

/-- C1: end-to-end — parsing
`"userId=123&userName=bob&filter[]=orderId-eq-1&filter[]=price-ge-200&sort=price-desc"`
with allow-list `{userId, userName, orderId, price}`, then building with base
table `orders` and columns `[id, status]` (Postgres, no joins, no column map,
no bind shift), returns exactly the expected SQL text and the four bind
pairs `(userId,123), (userName,bob), (orderId,1), (price,200)` in order. -/
theorem c1_end_to_end :
    (UrlQuery.new
        (s2l "userId=123&userName=bob&filter[]=orderId-eq-1&filter[]=price-ge-200&sort=price-desc")
        [s2l "userId", s2l "userName", s2l "orderId", s2l "price"]).map
      (fun q =>
        (QueryBuilder.new (s2l "orders") [s2l "id", s2l "status"] q Database.Postgres).build)
    = .ok
      (s2l "SELECT id, status FROM orders WHERE user_id = $1 AND user_name = $2 AND order_id = $3 AND price >= $4 ORDER BY price DESC",
       [(s2l "userId", s2l "123"), (s2l "userName", s2l "bob"),
        (s2l "orderId", s2l "1"), (s2l "price", s2l "200")]) := by
  decide

/-- C3: order preservation — for every input that parses successfully, the
model's `filters` has exactly one entry per `filter[]` or plain `key=value`
token, in the input's left-to-right token order, interleaving the two kinds. -/
theorem c3_order_preservation (input : Str) (allowed : List Str) (q : UrlQuery)
    (h : UrlQuery.new input allowed = .ok q) :
    q.filters = (splitList '&' input).filterMap specFilterOfToken := by
  have h' : newLoop allowed emptyQuery (splitList '&' input) = .ok q := h
  simpa [emptyQuery] using (newLoop_ok_spec h').1

/-- Witness for C3 at the spec's example: the three filters come out in
exactly the input order, interleaving the implicit equality entry. -/
theorem c3_order_preservation_witness :
    UrlQuery.new (s2l "userId=bob&filter[]=orderId-eq-1&filter[]=price-ge-200")
        [s2l "userId", s2l "orderId", s2l "price"]
      = .ok ⟨[s2l "userId"],
          [⟨s2l "userId", Condition.EQ, s2l "bob"⟩,
           ⟨s2l "orderId", Condition.EQ, s2l "1"⟩,
           ⟨s2l "price", Condition.GE, s2l "200"⟩], none, none, (none, none)⟩
    ∧ ([⟨s2l "userId", Condition.EQ, s2l "bob"⟩,
        ⟨s2l "orderId", Condition.EQ, s2l "1"⟩,
        ⟨s2l "price", Condition.GE, s2l "200"⟩] : List Filter)
      = (splitList '&'
          (s2l "userId=bob&filter[]=orderId-eq-1&filter[]=price-ge-200")).filterMap
          specFilterOfToken :=
  ⟨by decide,
   c3_order_preservation (s2l "userId=bob&filter[]=orderId-eq-1&filter[]=price-ge-200")
     [s2l "userId", s2l "orderId", s2l "price"]
     ⟨[s2l "userId"],
      [⟨s2l "userId", Condition.EQ, s2l "bob"⟩,
       ⟨s2l "orderId", Condition.EQ, s2l "1"⟩,
       ⟨s2l "price", Condition.GE, s2l "200"⟩], none, none, (none, none)⟩ (by decide)⟩

/-- C8: repeated keys — on a successful parse, `sort` is the fold that lets
each later `sort=` token overwrite the earlier one; each plain-key
occurrence appends its own implicit filter; and `params` is duplicate-free,
holding exactly the plain keys that occur. -/
theorem c8_repeated_keys (input : Str) (allowed : List Str) (q : UrlQuery)
    (h : UrlQuery.new input allowed = .ok q) :
    q.sort = (splitList '&' input).foldl (fun acc t =>
        match sortTokenOf t with
        | some s => some s
        | none => acc) none
    ∧ q.filters = (splitList '&' input).filterMap specFilterOfToken
    ∧ q.params.Nodup
    ∧ (∀ k, k ∈ q.params ↔ ∃ t ∈ splitList '&' input, plainKeyOf t = some k) := by
  have h' : newLoop allowed emptyQuery (splitList '&' input) = .ok q := h
  obtain ⟨hf, hs, hg, hp, hnd⟩ := newLoop_ok_spec h'
  refine ⟨by simpa [emptyQuery] using hs, by simpa [emptyQuery] using hf,
    hnd (by simp [emptyQuery]), ?_⟩
  intro k
  rw [hp k]
  simp [emptyQuery]

/-- Witness for C8: two `sort=` tokens (second wins) and a doubled plain key
(two implicit filters, one `params` entry). -/
theorem c8_repeated_keys_witness :
    UrlQuery.new (s2l "sort=a-asc&sort=b-desc&x=1&x=2") [s2l "a", s2l "b", s2l "x"]
      = .ok ⟨[s2l "x"],
          [⟨s2l "x", Condition.EQ, s2l "1"⟩, ⟨s2l "x", Condition.EQ, s2l "2"⟩],
          none, some ⟨s2l "b", SortBy.DESC⟩, (none, none)⟩
    ∧ (⟨[s2l "x"],
          [⟨s2l "x", Condition.EQ, s2l "1"⟩, ⟨s2l "x", Condition.EQ, s2l "2"⟩],
          none, some ⟨s2l "b", SortBy.DESC⟩, (none, none)⟩ : UrlQuery).sort
      = (splitList '&' (s2l "sort=a-asc&sort=b-desc&x=1&x=2")).foldl (fun acc t =>
          match sortTokenOf t with
          | some s => some s
          | none => acc) none :=
  ⟨by decide,
   (c8_repeated_keys (s2l "sort=a-asc&sort=b-desc&x=1&x=2") [s2l "a", s2l "b", s2l "x"]
     ⟨[s2l "x"],
      [⟨s2l "x", Condition.EQ, s2l "1"⟩, ⟨s2l "x", Condition.EQ, s2l "2"⟩],
      none, some ⟨s2l "b", SortBy.DESC⟩, (none, none)⟩ (by decide)).1⟩


/-- C2 (amended): every field name held by a successfully parsed model — the
`params` members, every filter field (implicit equality filters included),
the group field and the sort field — is in the allow-list; a token carrying
a disallowed plain key, filter field, group value or sort field makes its
own processing step fail with `InvalidField`, and its presence anywhere in
the input makes the whole parse fail (an earlier malformed token may abort
the parse with its own, different error first); in particular, with an
empty allow-list any plain key fails. -/
theorem c2_allow_list_invariant (input : Str) (allowed : List Str) :
    (∀ q, UrlQuery.new input allowed = .ok q →
      (∀ p ∈ q.params, p ∈ allowed) ∧ (∀ f ∈ q.filters, f.field ∈ allowed)
      ∧ (∀ g, q.group = some g → g ∈ allowed)
      ∧ (∀ s, q.sort = some s → s.field ∈ allowed))
    ∧ (∀ t, badToken allowed t = true →
        ∀ st, processToken allowed st t = .error .InvalidField)
    ∧ (∀ t ∈ splitList '&' input, badToken allowed t = true →
        ∀ q, UrlQuery.new input allowed ≠ .ok q) := by
  refine ⟨?_, fun t hb st => badToken_processToken hb st, ?_⟩
  · intro q h
    have h' : newLoop allowed emptyQuery (splitList '&' input) = .ok q := h
    exact newLoop_ok_allowed h' (by simp [emptyQuery]) (by simp [emptyQuery])
      (by simp [emptyQuery]) (by simp [emptyQuery])
  · intro t hmem hb q
    exact newLoop_fails_of_mem hmem hb emptyQuery q

/-- C2 counterexample: `"filter[]=bad&k=1"` with an empty allow-list
contains the plain key `k`, which is not in the allow-list, yet the parse
fails with `InvalidFilter` (from the earlier malformed `filter[]` token),
not with `InvalidField` as the claim states. -/
theorem c2_allow_list_counterexample :
    (s2l "k=1") ∈ splitList '&' (s2l "filter[]=bad&k=1")
    ∧ plainKeyOf (s2l "k=1") = some (s2l "k")
    ∧ (s2l "k") ∉ ([] : List Str)
    ∧ UrlQuery.new (s2l "filter[]=bad&k=1") [] = .error .InvalidFilter
    ∧ UrlQuery.new (s2l "filter[]=bad&k=1") [] ≠ .error .InvalidField := by
  refine ⟨by decide, by decide, by decide, by decide, by decide⟩

/-- Witness for C2: a parse that succeeds only with allowed fields, and a
 disallowed plain key under the empty allow-list that makes parsing fail. -/
theorem c2_allow_list_invariant_witness :
    (UrlQuery.new (s2l "userId=1") [s2l "userId"]
      = .ok ⟨[s2l "userId"], [⟨s2l "userId", Condition.EQ, s2l "1"⟩],
          none, none, (none, none)⟩)
    ∧ (∀ f ∈ ([⟨s2l "userId", Condition.EQ, s2l "1"⟩] : List Filter),
        f.field ∈ [s2l "userId"])
    ∧ ((s2l "k=1") ∈ splitList '&' (s2l "k=1")
      ∧ badToken [] (s2l "k=1") = true
      ∧ ∀ q, UrlQuery.new (s2l "k=1") [] ≠ .ok q) :=
  ⟨by decide,
   ((c2_allow_list_invariant (s2l "userId=1") [s2l "userId"]).1
     ⟨[s2l "userId"], [⟨s2l "userId", Condition.EQ, s2l "1"⟩],
      none, none, (none, none)⟩ (by decide)).2.1,
   by decide, by decide,
   (c2_allow_list_invariant (s2l "k=1") []).2.2 (s2l "k=1") (by decide) (by decide)⟩

/-- C7: parse atomicity — `UrlQuery::new` returns either a full model or a
single error from the closed `ParseError` set; and whenever the tokens
before some token all process fine but that token fails, the whole call
returns exactly that token's error (no partial model). -/
theorem c7_parse_atomicity (input : Str) (allowed : List Str) :
    ((∃ q, UrlQuery.new input allowed = .ok q)
      ∨ (∃ e : ParseError, UrlQuery.new input allowed = .error e))
    ∧ (∀ ts1 t ts2 st' e, splitList '&' input = ts1 ++ t :: ts2 →
        newLoop allowed emptyQuery ts1 = .ok st' →
        processToken allowed st' t = .error e →
        UrlQuery.new input allowed = .error e) := by
  constructor
  · cases h : UrlQuery.new input allowed with
    | ok q => exact Or.inl ⟨q, rfl⟩
    | error e => exact Or.inr ⟨e, rfl⟩
  · intro ts1 t ts2 st' e hsplit h1 h2
    unfold UrlQuery.new
    rw [hsplit, newLoop_append, h1]
    simp [newLoop, h2]

/-- Witness for C7: after the fine token `a=1`, the malformed
`filter[]=bad` aborts the whole parse with its own error. -/
theorem c7_parse_atomicity_witness :
    splitList '&' (s2l "a=1&filter[]=bad&b=2")
      = [s2l "a=1"] ++ s2l "filter[]=bad" :: [s2l "b=2"]
    ∧ newLoop [s2l "a", s2l "b"] emptyQuery [s2l "a=1"]
      = .ok ⟨[s2l "a"], [⟨s2l "a", Condition.EQ, s2l "1"⟩], none, none, (none, none)⟩
    ∧ processToken [s2l "a", s2l "b"]
        ⟨[s2l "a"], [⟨s2l "a", Condition.EQ, s2l "1"⟩], none, none, (none, none)⟩
        (s2l "filter[]=bad") = .error .InvalidFilter
    ∧ UrlQuery.new (s2l "a=1&filter[]=bad&b=2") [s2l "a", s2l "b"]
      = .error .InvalidFilter :=
  ⟨by decide, by decide, by decide,
   (c7_parse_atomicity (s2l "a=1&filter[]=bad&b=2") [s2l "a", s2l "b"]).2
     [s2l "a=1"] (s2l "filter[]=bad") [s2l "b=2"]
     ⟨[s2l "a"], [⟨s2l "a", Condition.EQ, s2l "1"⟩], none, none, (none, none)⟩
     ParseError.InvalidFilter (by decide) (by decide) (by decide)⟩


/-- C4: bind numbering — for every builder state (any model and any shift,
default 0 for both constructors), `append_where` emits a WHERE clause only
when `filters` is non-empty, with one `" AND "`-joined conjunct per filter
in model order; the conjunct for the i-th filter (0-based) is rendered at
bind index `i + shift + 1`, and under Postgres it ends in the placeholder
`$(i + shift + 1)`. -/
theorem c4_bind_numbering (b : QueryBuilder)
    (hdb : b.database = Database.Postgres) :
    ((b.append_where).1.sql =
      if b.url_query.filters.length > 0
      then b.sql ++ s2l " WHERE " ++ joinSep (s2l " AND ")
        ((withIdx 0 b.url_query.filters).map (fun p =>
          p.2.to_sql_map_table (p.1 + b.shift_bind + 1)
            (lookupMap b.map_columns p.2.field) (some Case.Snake) b.database))
      else b.sql)
    ∧ (∀ i, i < b.url_query.filters.length →
        ∃ f pre, b.url_query.filters.get? i = some f
          ∧ ((withIdx 0 b.url_query.filters).map (fun p =>
              p.2.to_sql_map_table (p.1 + b.shift_bind + 1)
                (lookupMap b.map_columns p.2.field) (some Case.Snake) b.database)).get? i
            = some (pre ++ '$' :: Nat.toDigits 10 (i + b.shift_bind + 1)))
    ∧ (∀ x, (b.withShiftBind x).shift_bind = x)
    ∧ (∀ t cols uq db, (QueryBuilder.new t cols uq db).shift_bind = 0)
    ∧ (∀ s uq db, (QueryBuilder.from_str s uq db).shift_bind = 0) := by
  refine ⟨?_, ?_, fun x => rfl, fun t cols uq db => rfl, fun s uq db => rfl⟩
  · simp only [QueryBuilder.append_where, whereLoop_spec, List.length_map, withIdx_length,
      List.length_nil]
  · intro i hi
    have hget : b.url_query.filters.get? i
        = some (b.url_query.filters.get ⟨i, hi⟩) := List.get?_eq_get hi
    obtain ⟨pre, hpre⟩ := to_sql_map_table_postgres (b.url_query.filters.get ⟨i, hi⟩)
      (i + b.shift_bind + 1)
      (lookupMap b.map_columns (b.url_query.filters.get ⟨i, hi⟩).field) (some Case.Snake)
    refine ⟨_, pre, hget, ?_⟩
    rw [List.get?_map, withIdx_get?, hget, hdb]
    simpa using hpre

/-- Witness for C4 at a two-filter Postgres builder with shift 0: the second
conjunct carries the `$2` placeholder. -/
theorem c4_bind_numbering_witness :
    exBuilderTwoFilters.database = Database.Postgres
    ∧ (1 < exBuilderTwoFilters.url_query.filters.length)
    ∧ (∃ f pre, exBuilderTwoFilters.url_query.filters.get? 1 = some f
        ∧ ((withIdx 0 exBuilderTwoFilters.url_query.filters).map (fun p =>
            p.2.to_sql_map_table (p.1 + exBuilderTwoFilters.shift_bind + 1)
              (lookupMap exBuilderTwoFilters.map_columns p.2.field) (some Case.Snake)
              exBuilderTwoFilters.database)).get? 1
          = some (pre ++ '$' :: Nat.toDigits 10 (1 + exBuilderTwoFilters.shift_bind + 1))) :=
  ⟨rfl, by decide, (c4_bind_numbering exBuilderTwoFilters rfl).2.1 1 (by decide)⟩

/-- C6: limit/offset rendering — `build` appends ` LIMIT <limit>` exactly
when the model's limit is present, appends ` OFFSET <offset>` only when the
limit is also present, and renders neither when the limit is absent (even
if an offset is stored). -/
theorem c6_limit_offset_rendering (b : QueryBuilder) :
    (∀ l, b.url_query.limit_offset = (some l, none) →
      (b.build).1 = preLimitSql b ++ s2l " LIMIT " ++ l)
    ∧ (∀ l o, b.url_query.limit_offset = (some l, some o) →
      (b.build).1 = preLimitSql b ++ (s2l " LIMIT " ++ l) ++ (s2l " OFFSET " ++ o))
    ∧ (b.url_query.limit_offset.1 = none → (b.build).1 = preLimitSql b) := by
  refine ⟨?_, ?_, ?_⟩
  · intro l hl
    simp [build_sql_spec, hl, append_limit, List.append_assoc]
  · intro l o hl
    simp [build_sql_spec, hl, append_limit, append_offset, List.append_assoc]
  · intro hl
    simp [build_sql_spec, hl]

/-- Witness for C6: `limit="10"` with no offset appends exactly ` LIMIT 10`,
and an offset with no limit appends nothing. -/
theorem c6_limit_offset_rendering_witness :
    exBuilderLimitOnly.url_query.limit_offset = (some (s2l "10"), none)
    ∧ (exBuilderLimitOnly.build).1 = preLimitSql exBuilderLimitOnly ++ s2l " LIMIT " ++ s2l "10"
    ∧ exBuilderOffsetOnly.url_query.limit_offset.1 = none
    ∧ (exBuilderOffsetOnly.build).1 = preLimitSql exBuilderOffsetOnly :=
  ⟨rfl, (c6_limit_offset_rendering exBuilderLimitOnly).1 (s2l "10") rfl, rfl,
   (c6_limit_offset_rendering exBuilderOffsetOnly).2.2 rfl⟩

/-- C9: the bind args returned by `append_where` (and passed through by
`build`) pair each filter's field name exactly as stored in the model —
before any snake_case transform — with its value, in model order; the case
transform touches only the rendered SQL text. -/
theorem c9_bind_args_field_names (b : QueryBuilder) :
    (b.append_where).2 = b.url_query.filters.map (fun f => (f.field, f.value))
    ∧ (b.build).2 = b.url_query.filters.map (fun f => (f.field, f.value)) :=
  ⟨append_where_args b, build_args b⟩

/-- C10: limit/offset bypass validation and are spliced verbatim — parsing
`"limit=abc&offset=xyz"` with an empty allow-list succeeds; the `limit=` and
`offset=` branches store any value for any allow-list without a check;
`build` concatenates the stored strings verbatim (` LIMIT ` / ` OFFSET `)
instead of emitting placeholders; and every bind-arg pair comes from a
filter, so limit/offset never appear among them. -/
theorem c10_limit_offset_bypass :
    (UrlQuery.new (s2l "limit=abc&offset=xyz") []
      = .ok ⟨[], [], none, none, (some (s2l "abc"), some (s2l "xyz"))⟩)
    ∧ (∀ (allowed : List Str) (st : UrlQuery) (v : Str),
        processToken allowed st (s2l "limit=" ++ v)
          = .ok { st with limit_offset := (some v, st.limit_offset.2) })
    ∧ (∀ (allowed : List Str) (st : UrlQuery) (v : Str),
        processToken allowed st (s2l "offset=" ++ v)
          = .ok { st with limit_offset := (st.limit_offset.1, some v) })
    ∧ (∀ b : QueryBuilder, ∀ l o, b.url_query.limit_offset = (some l, some o) →
        (b.build).1 = preLimitSql b ++ (s2l " LIMIT " ++ l) ++ (s2l " OFFSET " ++ o))
    ∧ (∀ b : QueryBuilder, ∀ p ∈ (b.build).2,
        ∃ f ∈ b.url_query.filters, p = (f.field, f.value)) := by
  refine ⟨by decide, ?_, ?_, ?_, ?_⟩
  · intro allowed st v
    have hsp : splitOnce '=' (s2l "limit=" ++ v) = some (s2l "limit", v) := by
      have he : s2l "limit=" ++ v = s2l "limit" ++ '=' :: v := rfl
      rw [he, splitOnce_append v (by decide)]
    simp +decide [processToken, hsp]
  · intro allowed st v
    have hsp : splitOnce '=' (s2l "offset=" ++ v) = some (s2l "offset", v) := by
      have he : s2l "offset=" ++ v = s2l "offset" ++ '=' :: v := rfl
      rw [he, splitOnce_append v (by decide)]
    simp +decide [processToken, hsp]
  · intro b l o hl
    simp [build_sql_spec, hl, append_limit, append_offset, List.append_assoc]
  · intro b p hp
    rw [build_args] at hp
    obtain ⟨f, hf, rfl⟩ := List.mem_map.mp hp
    exact ⟨f, hf, rfl⟩

/-- Witness for C10: the reserved-key steps store arbitrary values, and a
builder with limit/offset splices them verbatim, keeping only the filter's
pair among the bind args. -/
theorem c10_limit_offset_bypass_witness :
    (processToken [] emptyQuery (s2l "limit=" ++ s2l "abc")
      = .ok { emptyQuery with limit_offset := (some (s2l "abc"), emptyQuery.limit_offset.2) })
    ∧ exBuilderLimitOffset.url_query.limit_offset = (some (s2l "10"), some (s2l "5"))
    ∧ (exBuilderLimitOffset.build).1
      = preLimitSql exBuilderLimitOffset ++ (s2l " LIMIT " ++ s2l "10")
        ++ (s2l " OFFSET " ++ s2l "5")
    ∧ (s2l "aa", s2l "1") ∈ (exBuilderLimitOffset.build).2
    ∧ (∃ f ∈ exBuilderLimitOffset.url_query.filters,
        (s2l "aa", s2l "1") = (f.field, f.value)) :=
  ⟨c10_limit_offset_bypass.2.1 [] emptyQuery (s2l "abc"), rfl,
   c10_limit_offset_bypass.2.2.2.1 exBuilderLimitOffset (s2l "10") (s2l "5") rfl,
   by decide,
   c10_limit_offset_bypass.2.2.2.2 exBuilderLimitOffset (s2l "aa", s2l "1") (by decide)⟩

end QuerySpec
